import Mathlib

/-!
# Connectivity views and UTM zones

A shallow embedding of

* `vtkGeoTransform::ComputeUTMZone` of `Geovis/Core/vtkGeoTransform.cxx`, and
* the three execution-side connectivity views of
  `Accelerators/Vtkm/vtkmConnectivityExec.cxx`:
  `ConnectivityVTKAOS` (variable-shape cells, count-prefixed layout),
  `ConnectivityVTKSingleType` (uniform-shape cells, arithmetic offsets) and
  `ReverseConnectivityVTK` (point-to-cell incidence, CSR layout),

followed by theorems about them.

Conventions of the embedding of the connectivity views.

* `vtkm::Id` values are mathematical integers (`Int`) in the signed 64-bit
  range.  The index arithmetic of `ConnectivityVTKSingleType::GetIndices` is
  fixed-width: the sum `NumberOfPointsPerCell + 1` is a 32-bit `int` sum, the
  product with the index and the final `+ 1` are 64-bit `vtkm::Id` operations,
  and a result outside the range is reduced into it (`toIdComponent`,
  `wrapId`), as the compiled code does.  The sums `offset + 1`, `index + 1`
  of the other two views are taken at positions of arrays and stay in range
  for every array whose length is a `vtkm::Id`; the difference
  `next - offset` is narrowed to 32 bits, which absorbs a 64-bit reduction.
* `vtkm::IdComponent` is a signed 32-bit integer; the conversion
  `static_cast<vtkm::IdComponent>(x)` of a 64-bit `vtkm::Id` keeps the low 32
  bits (`toIdComponent`).
* A portal read outside `[0, GetNumberOfValues())` has no defined result in the
  source; `ArrayPortal.Get` returns `none` there, and every function that
  performs such a read returns `none`.

Conventions of the embedding of `ComputeUTMZone`.

* A finite `double` is the rational number it denotes; NaN and the infinities
  are not modelled.
* `std::fmod` and the comparisons of doubles are exact.
* `+` and `/` on doubles return the exact result rounded to 53 significant
  binary digits, to nearest, ties to even (`roundDouble`).  The exponent range
  of `double` is not modelled: every value rounded by `ComputeUTMZone` lies
  between `2^-48` and `361`.
* The conversion of the returned `double` to `int` truncates toward zero.
-/

namespace vtkGeoTransform

/-- Truncation toward zero: the conversion of a `double` to `int`, and the
integer quotient of `std::fmod`. -/
def truncToInt (q : ℚ) : Int :=
  if 0 ≤ q then ⌊q⌋ else ⌈q⌉

/-- `std::fmod(x, y)` on finite doubles: `x - n * y` with `n` the quotient
`x / y` truncated toward zero; the result is exact. -/
def fmod (x y : ℚ) : ℚ :=
  x - y * (truncToInt (x / y) : ℚ)

/-- The position of the leading binary digit of `n`, by repeated halving
(`floorLog2 n n` is the integer part of the binary logarithm of `n ≥ 1`). -/
def floorLog2 : Nat → Nat → Nat
  | 0, _ => 0
  | fuel + 1, n => if n < 2 then 0 else floorLog2 fuel (n / 2) + 1

/-- The binary exponent `e` of a non-zero rational: `2^e ≤ |q| < 2^(e+1)`. -/
def binade (q : ℚ) : Int :=
  let p := q.num.natAbs
  let d := q.den
  let e : Int := (floorLog2 p p : Int) - (floorLog2 d d : Int)
  if 0 ≤ e then (if p < 2 ^ e.toNat * d then e - 1 else e)
  else (if p * 2 ^ (-e).toNat < d then e - 1 else e)

/-- The quotient `a / b` rounded to the nearest natural number, ties to the
even one. -/
def roundHalfEven (a b : Nat) : Nat :=
  if 2 * (a % b) < b then a / b
  else if b < 2 * (a % b) then a / b + 1
  else if (a / b) % 2 = 0 then a / b
  else a / b + 1

/-- The rounding of an exact result to `double`: 53 significant binary digits,
to nearest, ties to even. -/
def roundDouble (q : ℚ) : ℚ :=
  if q = 0 then 0
  else
    let s : Int := 52 - binade q
    let n : Nat :=
      if 0 ≤ s then roundHalfEven (q.num.natAbs * 2 ^ s.toNat) q.den
      else roundHalfEven q.num.natAbs (q.den * 2 ^ (-s).toNat)
    let r : ℚ :=
      if 0 ≤ s then (n : ℚ) / ((2 ^ s.toNat : Nat) : ℚ)
      else (n : ℚ) * ((2 ^ (-s).toNat : Nat) : ℚ)
    if q < 0 then -r else r

/-- `vtkGeoTransform::ComputeUTMZone`. -/
def ComputeUTMZone (lat lon : ℚ) : Int :=
  let lat := fmod lat 90
  let lon := fmod lon 180
  if lat > 84 ∨ lat < -80 then 0
  else if lat ≥ 72 ∧ lon ≥ 0 ∧ lon < 42 then
    if lon < 9 then 31
    else if lon < 21 then 33
    else if lon < 33 then 35
    else 37
  else if lat ≥ 56 ∧ lat < 64 ∧ lon ≥ 0 ∧ lon < 12 then
    if lon < 3 then 31
    else 32
  else truncToInt (roundDouble (roundDouble (roundDouble (lon + 180) / 6) + 1))

/-- The largest `double` below `180`: `180 - 2^-45`, printed
`179.99999999999997`. -/
def largestBelow180 : ℚ :=
  6333186975989759 / 35184372088832

end vtkGeoTransform

namespace vtkm

/-- The type `vtkm::IdComponent`: a signed 32-bit integer. -/
abbrev IdComponent : Type := { n : Int // -2147483648 ≤ n ∧ n ≤ 2147483647 }

/-- The conversion `static_cast<vtkm::IdComponent>(x)` of a `vtkm::Id`:
reduction modulo `2^32` into the signed 32-bit range. -/
def toIdComponent (x : Int) : IdComponent :=
  ⟨(x + 2147483648) % 4294967296 - 2147483648, by constructor <;> omega⟩

/-- The result of a `vtkm::Id` operation whose exact value is `x`: reduction
modulo `2^64` into the signed 64-bit range. -/
def wrapId (x : Int) : Int :=
  (x + 9223372036854775808) % 18446744073709551616 - 9223372036854775808

/-- Modelled from the spec: the portal types (`ShapePortalType`,
`ConnectivityPortalType`, `IndexOffsetPortalType`) are declared in the header
`vtkmConnectivityExec.h`, which is not among the sources.  A portal is a
non-owning accessor over a contiguous array supporting `length()` and `get(i)`,
with no bounds checking. -/
structure ArrayPortal (α : Type) where
  /-- The contiguous backing array. -/
  data : List α
deriving DecidableEq

namespace ArrayPortal

variable {α : Type}

/-- The number of entries of the backing array, `GetNumberOfValues()`. -/
def GetNumberOfValues (p : ArrayPortal α) : Int :=
  (p.data.length : Int)

/-- The portal read `Get(index)`; `none` outside the backing array. -/
def Get (p : ArrayPortal α) (index : Int) : Option α :=
  if 0 ≤ index then p.data[index.toNat]? else none

end ArrayPortal

/-- Modelled from the spec: `IndicesType` is `vtkm::VecFromPortal` over the
connectivity portal, declared outside the sources.  An Indices View is a
`(backing array, length, starting offset)` triple; the constructor call
`IndicesType(portal, length, offset)` of the source fills the three fields in
this order. -/
structure VecFromPortal where
  /-- The backing portal. -/
  Portal : ArrayPortal Int
  /-- The number of components of the view. -/
  NumComponents : IdComponent
  /-- The position of component `0` in the backing portal. -/
  Offset : Int
deriving DecidableEq

namespace VecFromPortal

/-- Component `k` of the view: the read of the backing portal at
`k + Offset`. -/
def getComponent (v : VecFromPortal) (k : Int) : Option Int :=
  v.Portal.Get (k + v.Offset)

/-- The components `k, k+1, ..., k+n-1` of the view, read in order; `none`
when one of the reads leaves the backing array. -/
def readFrom (v : VecFromPortal) : Int → Nat → Option (List Int)
  | _, 0 => some []
  | k, n + 1 =>
    match v.getComponent k, readFrom v (k + 1) n with
    | some x, some xs => some (x :: xs)
    | _, _ => none

/-- All components `0, ..., NumComponents - 1` of the view, read in order.  A
view whose length is not positive has no component. -/
def read (v : VecFromPortal) : Option (List Int) :=
  v.readFrom 0 v.NumComponents.val.toNat

/-- The positions of the backing portal covered by the view:
`Offset, ..., Offset + NumComponents - 1`. -/
def positions (v : VecFromPortal) : List Int :=
  (List.range v.NumComponents.val.toNat).map (fun k : Nat => (k : Int) + v.Offset)

end VecFromPortal

namespace exec

/-- Modelled from the spec: the class declaration is in the missing header
`vtkmConnectivityExec.h`.  The variable-shape view holds the three portals
bound by the constructor of the source: the shape tags (`vtkm::UInt8`), the
flattened count-prefixed index array and the per-cell offsets. -/
structure ConnectivityVTKAOS where
  /-- One shape tag per cell. -/
  Shapes : ArrayPortal (Fin 256)
  /-- The flattened index array. -/
  Connectivity : ArrayPortal Int
  /-- The position of the count cell of every cell. -/
  IndexOffsets : ArrayPortal Int
deriving DecidableEq

namespace ConnectivityVTKAOS

/-- `ConnectivityVTKAOS<Device>::GetNumberOfElements`. -/
def GetNumberOfElements (c : ConnectivityVTKAOS) : Int :=
  c.Shapes.GetNumberOfValues

/-- `ConnectivityVTKAOS<Device>::GetCellShape`: the stored tag, unconverted. -/
def GetCellShape (c : ConnectivityVTKAOS) (index : Int) : Option (Fin 256) :=
  c.Shapes.Get index

/-- `ConnectivityVTKAOS<Device>::GetIndices`. -/
def GetIndices (c : ConnectivityVTKAOS) (index : Int) : Option VecFromPortal :=
  match c.IndexOffsets.Get index with
  | none => none
  | some offset =>
    match c.Connectivity.Get offset with
    | none => none
    | some count =>
      let length := toIdComponent count
      some ⟨c.Connectivity, length, offset + 1⟩

end ConnectivityVTKAOS

/-- Modelled from the spec: the class declaration is in the missing header.
The uniform-shape view holds the connectivity portal and the three scalars
bound by the constructor of the source (`vtkm::Id numCells`,
`vtkm::IdComponent numPointsPerCell`, `vtkm::UInt8 shapeType`). -/
structure ConnectivityVTKSingleType where
  /-- The flattened index array. -/
  Connectivity : ArrayPortal Int
  /-- The number of cells. -/
  NumberOfCells : Int
  /-- The number of points of every cell. -/
  NumberOfPointsPerCell : IdComponent
  /-- The shape tag of every cell. -/
  ShapeType : Fin 256
deriving DecidableEq

namespace ConnectivityVTKSingleType

/-- `ConnectivityVTKSingleType<Device>::GetNumberOfElements`. -/
def GetNumberOfElements (c : ConnectivityVTKSingleType) : Int :=
  c.NumberOfCells

/-- `ConnectivityVTKSingleType<Device>::GetCellShape`; the index is unused. -/
def GetCellShape (c : ConnectivityVTKSingleType) (_index : Int) : Fin 256 :=
  c.ShapeType

/-- `ConnectivityVTKSingleType<Device>::GetIndices`.  The sum
`NumberOfPointsPerCell + 1` is a 32-bit sum; the product with `index` and the
sum `offset + 1` are 64-bit operations. -/
def GetIndices (c : ConnectivityVTKSingleType) (index : Int) : VecFromPortal :=
  let offset := wrapId (index * (toIdComponent (c.NumberOfPointsPerCell.val + 1)).val)
  ⟨c.Connectivity, c.NumberOfPointsPerCell, wrapId (offset + 1)⟩

end ConnectivityVTKSingleType

/-- Modelled from the spec: the class declaration is in the missing header.
The reverse view holds the two portals bound by the constructor of the source:
the flattened index array and the offsets, one more than there are points. -/
structure ReverseConnectivityVTK where
  /-- The flattened index array. -/
  Connectivity : ArrayPortal Int
  /-- The start of the entry of every point, and a final sentinel. -/
  IndexOffsets : ArrayPortal Int
deriving DecidableEq

namespace ReverseConnectivityVTK

/-- `ReverseConnectivityVTK<Device>::GetNumberOfElements`. -/
def GetNumberOfElements (c : ReverseConnectivityVTK) : Int :=
  c.IndexOffsets.GetNumberOfValues - 1

/-- `ReverseConnectivityVTK<Device>::GetIndices`. -/
def GetIndices (c : ReverseConnectivityVTK) (index : Int) : Option VecFromPortal :=
  match c.IndexOffsets.Get index with
  | none => none
  | some offset =>
    match c.IndexOffsets.Get (index + 1) with
    | none => none
    | some next =>
      let length := toIdComponent (next - offset)
      some ⟨c.Connectivity, length, offset⟩

/-- The traversal of a consumer over the points `i, i+1, ..., i+n-1`: the
reads of `GetIndices i`, ..., `GetIndices (i+n-1)`, concatenated in index
order; `none` when one of the reads leaves a backing array. -/
def readRange (c : ReverseConnectivityVTK) : Int → Nat → Option (List Int)
  | _, 0 => some []
  | i, n + 1 =>
    match c.GetIndices i with
    | none => none
    | some v =>
      match v.read, readRange c (i + 1) n with
      | some xs, some rest => some (xs ++ rest)
      | _, _ => none

/-- The traversal of a consumer over all points `0, ..., numberOfElements() - 1`. -/
def readAll (c : ReverseConnectivityVTK) : Option (List Int) :=
  c.readRange 0 c.GetNumberOfElements.toNat

/-- The check of the data-model invariant "every offset plus its length stays
within the bounds of the flattened index array" on the entries of all points
`0, ..., numberOfElements() - 1`. -/
def entriesWithinBounds (c : ReverseConnectivityVTK) : Bool :=
  (List.range c.GetNumberOfElements.toNat).all fun i =>
    match c.GetIndices (i : Int) with
    | none => false
    | some v =>
      decide (0 ≤ v.Offset ∧
        v.Offset + v.NumComponents.val ≤ c.Connectivity.GetNumberOfValues)

end ReverseConnectivityVTK

end exec

/-! ## Concrete views

The three scenarios of the specification (shape tags `5` = triangle and `3` =
line), and views whose stored lengths do not fit in 32 bits. -/

open exec

/-- The variable-shape scenario: a triangle `0 1 2` and a line `3 4`. -/
def aosScenario : ConnectivityVTKAOS :=
  ⟨⟨[5, 3]⟩, ⟨[3, 0, 1, 2, 2, 3, 4]⟩, ⟨[0, 4]⟩⟩

/-- A variable-shape view of two triangles `0 1 2` and `3 4 5`, over the
flattened array of `singleTypeScenario`. -/
def aosTwoTriangles : ConnectivityVTKAOS :=
  ⟨⟨[5, 5]⟩, ⟨[3, 0, 1, 2, 3, 3, 4, 5]⟩, ⟨[0, 4]⟩⟩

/-- A variable-shape view whose only count cell holds `2^32 + 3`. -/
def aosWideCount : ConnectivityVTKAOS :=
  ⟨⟨[5]⟩, ⟨[4294967299, 7, 8, 9]⟩, ⟨[0]⟩⟩

/-- The reverse scenario: three points with two incident cells each. -/
def reverseScenario : ReverseConnectivityVTK :=
  ⟨⟨[0, 2, 1, 0, 1, 2]⟩, ⟨[0, 2, 4, 6]⟩⟩

/-- A reverse view whose two offsets are `2^32 + 2` apart. -/
def reverseWideOffsets : ReverseConnectivityVTK :=
  ⟨⟨[0, 2, 1]⟩, ⟨[0, 4294967298]⟩⟩

/-- A reverse view whose offsets cover only the entries `1, ..., 4` of the six
entries of its flattened array. -/
def reverseShortOffsets : ReverseConnectivityVTK :=
  ⟨⟨[0, 2, 1, 0, 1, 2]⟩, ⟨[1, 3, 5]⟩⟩

/-- A reverse view with a single point whose entry spans `2^31` indices. -/
def reverseHugeEntry : ReverseConnectivityVTK :=
  ⟨⟨List.replicate 2147483648 0⟩, ⟨[0, 2147483648]⟩⟩

/-- The uniform-shape scenario: two triangles `0 1 2` and `3 4 5`. -/
def singleTypeScenario : ConnectivityVTKSingleType :=
  ⟨⟨[3, 0, 1, 2, 3, 3, 4, 5]⟩, 2, ⟨3, by decide⟩, 5⟩

/-- A uniform-shape view with the largest number of points per cell,
`2^31 - 1`. -/
def singleTypeWidest : ConnectivityVTKSingleType :=
  ⟨⟨[]⟩, 2, ⟨2147483647, by decide⟩, 5⟩

/-- A variable-shape view of two cells of `2^31 - 1` points each, over a
flattened array of `2 * 2^31` entries that all hold `2^31 - 1`; the count
slots are the positions `0` and `2^31`. -/
def aosWidestCells : ConnectivityVTKAOS :=
  ⟨⟨[5, 5]⟩, ⟨List.replicate 4294967296 2147483647⟩, ⟨[0, 2147483648]⟩⟩

/-- The variable-shape view `aosTwoTriangles` with a third shape tag. -/
def aosExtraShape : ConnectivityVTKAOS :=
  ⟨⟨[5, 5, 5]⟩, ⟨[3, 0, 1, 2, 3, 3, 4, 5]⟩, ⟨[0, 4]⟩⟩

theorem toIdComponent_val_eq (x : Int) :
    (toIdComponent x).val = (x + 2147483648) % 4294967296 - 2147483648 := rfl

theorem toIdComponent_of_inRange (x : Int) (hlo : -2147483648 ≤ x) (hhi : x ≤ 2147483647) :
    (toIdComponent x).val = x := by
  rw [toIdComponent_val_eq]; omega

theorem toIdComponent_val (n : IdComponent) : toIdComponent n.val = n := by
  apply Subtype.ext
  exact toIdComponent_of_inRange n.val n.property.1 n.property.2

theorem ArrayPortal.Get_of_nonneg {α : Type} (p : ArrayPortal α) (i : Int) (h : 0 ≤ i) :
    p.Get i = p.data[i.toNat]? := by
  simp [ArrayPortal.Get, h]

theorem ArrayPortal.Get_eq_some {α : Type} (p : ArrayPortal α) (i : Int) (x : α)
    (h : p.Get i = some x) : 0 ≤ i ∧ i < p.GetNumberOfValues := by
  unfold ArrayPortal.Get at h
  split at h
  · rename_i h0
    refine ⟨h0, ?_⟩
    have hlt : i.toNat < p.data.length := by
      by_contra hge
      rw [List.getElem?_eq_none (by omega)] at h
      exact Option.noConfusion h
    unfold ArrayPortal.GetNumberOfValues
    omega
  · exact Option.noConfusion h

theorem ArrayPortal.Get_isSome {α : Type} (p : ArrayPortal α) (i : Int)
    (h0 : 0 ≤ i) (h1 : i < p.GetNumberOfValues) : ∃ x, p.Get i = some x := by
  unfold ArrayPortal.GetNumberOfValues at h1
  have hlt : i.toNat < p.data.length := by omega
  refine ⟨p.data[i.toNat], ?_⟩
  rw [ArrayPortal.Get_of_nonneg p i h0, List.getElem?_eq_getElem hlt]

theorem VecFromPortal.readFrom_eq (v : VecFromPortal) (n : Nat) :
    ∀ k : Int, 0 ≤ k + v.Offset →
      k + v.Offset + (n : Int) ≤ v.Portal.GetNumberOfValues →
      v.readFrom k n = some ((v.Portal.data.drop (k + v.Offset).toNat).take n) := by
  induction n with
  | zero => intro k _ _; simp [VecFromPortal.readFrom]
  | succ n ih =>
    intro k h0 h1
    unfold ArrayPortal.GetNumberOfValues at h1
    have hlt : (k + v.Offset).toNat < v.Portal.data.length := by omega
    have hrest := ih (k + 1) (by omega) (by unfold ArrayPortal.GetNumberOfValues; omega)
    have hnat : (k + 1 + v.Offset).toNat = (k + v.Offset).toNat + 1 := by omega
    have hget : v.getComponent k = some v.Portal.data[(k + v.Offset).toNat] := by
      unfold VecFromPortal.getComponent
      rw [ArrayPortal.Get_of_nonneg _ _ h0, List.getElem?_eq_getElem hlt]
    unfold VecFromPortal.readFrom
    rw [hget, hrest, hnat]
    simp only []
    rw [List.drop_eq_getElem_cons hlt, List.take_succ_cons]

theorem chain_getElem {R : Int → Int → Prop} :
    ∀ (l : List Int) (i : Nat) (a b : Int), l.Chain' R →
      l[i]? = some a → l[i + 1]? = some b → R a b := by
  intro l
  induction l with
  | nil => intro i a b _ ha _; simp at ha
  | cons x t ih =>
    intro i a b hch ha hb
    cases i with
    | zero =>
      cases t with
      | nil => simp at hb
      | cons y t2 =>
        simp at ha hb
        subst ha hb
        exact (List.chain'_cons.mp hch).1
    | succ j =>
      simp at ha hb
      exact ih j a b hch.tail ha hb

theorem ArrayPortal.chain_Get {R : Int → Int → Prop} (p : ArrayPortal Int)
    (hch : p.data.Chain' R) (i a b : Int)
    (ha : p.Get i = some a) (hb : p.Get (i + 1) = some b) : R a b := by
  have h0 := (ArrayPortal.Get_eq_some p i a ha).1
  rw [ArrayPortal.Get_of_nonneg p i h0] at ha
  rw [ArrayPortal.Get_of_nonneg p (i + 1) (by omega)] at hb
  have hnat : (i + 1).toNat = i.toNat + 1 := by omega
  rw [hnat] at hb
  exact chain_getElem p.data i.toNat a b hch ha hb

theorem ReverseConnectivityVTK.readRange_eq_drop (c : ReverseConnectivityVTK)
    (hmono : c.IndexOffsets.data.Chain' (fun a b => a ≤ b))
    (hfit : c.IndexOffsets.data.Chain' (fun a b => b - a ≤ 2147483647))
    (hlast : c.IndexOffsets.Get c.GetNumberOfElements
      = some c.Connectivity.GetNumberOfValues) :
    ∀ (k : Nat) (i o : Int), 0 ≤ i → i + (k : Int) = c.GetNumberOfElements →
      c.IndexOffsets.Get i = some o → 0 ≤ o →
      o ≤ c.Connectivity.GetNumberOfValues ∧
        c.readRange i k = some (c.Connectivity.data.drop o.toNat) := by
  intro k
  induction k with
  | zero =>
    intro i o _ hik hio _
    have hi : i = c.GetNumberOfElements := by simpa using hik
    rw [hi, hlast] at hio
    have ho : o = c.Connectivity.GetNumberOfValues := (Option.some.inj hio).symm
    subst ho
    refine ⟨le_refl _, ?_⟩
    simp [ReverseConnectivityVTK.readRange, ArrayPortal.GetNumberOfValues]
  | succ k ih =>
    intro i o hi0 hik hio ho0
    have hlt : i + 1 < c.IndexOffsets.GetNumberOfValues := by
      unfold ReverseConnectivityVTK.GetNumberOfElements at hik
      push_cast at hik
      omega
    obtain ⟨next, hnext⟩ := ArrayPortal.Get_isSome c.IndexOffsets (i + 1) (by omega) hlt
    have hle : o ≤ next := ArrayPortal.chain_Get c.IndexOffsets hmono i o next hio hnext
    have hsmall : next - o ≤ 2147483647 :=
      ArrayPortal.chain_Get c.IndexOffsets hfit i o next hio hnext
    obtain ⟨hnb, hrest⟩ := ih (i + 1) next (by omega) (by push_cast at hik; omega) hnext
      (by omega)
    refine ⟨by omega, ?_⟩
    have hval : (toIdComponent (next - o)).val = next - o :=
      toIdComponent_of_inRange (next - o) (by omega) hsmall
    have hread : (VecFromPortal.mk c.Connectivity (toIdComponent (next - o)) o).read
        = some ((c.Connectivity.data.drop o.toNat).take (next - o).toNat) := by
      have h := VecFromPortal.readFrom_eq ⟨c.Connectivity, toIdComponent (next - o), o⟩
        (next - o).toNat 0 (by simpa using ho0) (by simp; omega)
      simpa [VecFromPortal.read, hval] using h
    have hsplit : next.toNat = o.toNat + (next - o).toNat := by omega
    unfold ReverseConnectivityVTK.readRange
    simp only [ReverseConnectivityVTK.GetIndices, hio, hnext, hread, hrest]
    rw [hsplit, ← List.drop_drop, List.take_append_drop]

theorem VecFromPortal.mem_positions (v : VecFromPortal) (p : Int) (hp : p ∈ v.positions) :
    ∃ k : Int, 0 ≤ k ∧ k < v.NumComponents.val ∧ p = k + v.Offset := by
  unfold VecFromPortal.positions at hp
  rw [List.mem_map] at hp
  obtain ⟨k, hk, hkp⟩ := hp
  rw [List.mem_range] at hk
  exact ⟨(k : Int), by omega, by omega, hkp.symm⟩

theorem ArrayPortal.mono_Get (p : ArrayPortal Int)
    (hmono : p.data.Chain' (fun a b => a ≤ b)) (j : Int) (a : Int)
    (ha : p.Get j = some a) :
    ∀ (d : Nat) (b : Int), p.Get (j + (d : Int)) = some b → a ≤ b := by
  intro d
  induction d with
  | zero =>
    intro b hb
    simp only [Nat.cast_zero, add_zero] at hb
    rw [ha] at hb
    exact le_of_eq (Option.some.inj hb)
  | succ d ih =>
    intro b hb
    have hj := (ArrayPortal.Get_eq_some p j a ha).1
    have hb2 := (ArrayPortal.Get_eq_some p _ b hb).2
    push_cast at hb hb2
    obtain ⟨m, hm⟩ := ArrayPortal.Get_isSome p (j + (d : Int)) (by omega) (by omega)
    have hstep : m ≤ b :=
      ArrayPortal.chain_Get p hmono (j + (d : Int)) m b hm (by rw [add_assoc]; exact hb)
    exact le_trans (ih m hm) hstep

theorem toIdComponent_eq_iff (x : Int) :
    (toIdComponent x).val = x ↔ -2147483648 ≤ x ∧ x < 2147483648 := by
  rw [toIdComponent_val_eq]
  omega

theorem wrapId_of_inRange (x : Int) (hlo : -9223372036854775808 ≤ x)
    (hhi : x ≤ 9223372036854775807) : wrapId x = x := by
  unfold wrapId
  omega

theorem ArrayPortal.Get_replicate (n : Nat) (a : Int) (i : Int) (h0 : 0 ≤ i)
    (hn : i < (n : Int)) : (ArrayPortal.mk (List.replicate n a)).Get i = some a := by
  unfold ArrayPortal.Get
  rw [if_pos h0, List.getElem?_replicate, if_pos (by omega)]

theorem ConnectivityVTKAOS.GetIndices_eq (c : ConnectivityVTKAOS) (i offset count : Int)
    (hoff : c.IndexOffsets.Get i = some offset)
    (hcount : c.Connectivity.Get offset = some count) :
    c.GetIndices i = some ⟨c.Connectivity, toIdComponent count, offset + 1⟩ := by
  simp [ConnectivityVTKAOS.GetIndices, hoff, hcount]

theorem ConnectivityVTKSingleType.GetIndices_Offset (c : ConnectivityVTKSingleType) (i : Int)
    (hppc : c.NumberOfPointsPerCell.val < 2147483647)
    (hlo : -9223372036854775808 ≤ i * (c.NumberOfPointsPerCell.val + 1))
    (hhi : i * (c.NumberOfPointsPerCell.val + 1) + 1 ≤ 9223372036854775807) :
    (c.GetIndices i).Offset = i * (c.NumberOfPointsPerCell.val + 1) + 1 := by
  have h32 : (toIdComponent (c.NumberOfPointsPerCell.val + 1)).val
      = c.NumberOfPointsPerCell.val + 1 :=
    toIdComponent_of_inRange _ (by have := c.NumberOfPointsPerCell.property.1; omega)
      (by omega)
  show wrapId (wrapId (i * (toIdComponent (c.NumberOfPointsPerCell.val + 1)).val) + 1) = _
  rw [h32, wrapId_of_inRange _ hlo (by omega), wrapId_of_inRange _ (by omega) hhi]

/-! ## Claims -/

/-- C1, as stated, fails: in `aosWideCount` the count cell of cell `0` holds
`2^32 + 3`, and the view returned by `GetIndices 0` has length `3`, which is not
the stored count; reading it yields three entries, not `2^32 + 3`. -/
theorem C1_length_differs_from_wide_count :
    aosWideCount.GetNumberOfElements = 1 ∧
    aosWideCount.IndexOffsets.Get 0 = some 0 ∧
    aosWideCount.Connectivity.Get 0 = some 4294967299 ∧
    aosWideCount.GetIndices 0
      = some ⟨aosWideCount.Connectivity, ⟨3, by decide⟩, 1⟩ ∧
    (3 : Int) ≠ 4294967299 ∧
    (aosWideCount.GetIndices 0).bind VecFromPortal.read = some [7, 8, 9] := by
  decide

/-- C1 (amended): in a variable-shape view, for every cell index `i` whose
offset `offset = indexOffsets[i]` and count cell `count = connectivity[offset]`
are readable, `GetIndices i` returns the view over `connectivity` that starts at
`offset + 1` and whose length is `count` narrowed to 32 bits; the length equals
`count` whenever `count` lies in `[-2^31, 2^31)`; component `k` of the view is
`connectivity[offset + 1 + k]`, its positions are `offset + 1, ...,
offset + length`, and when these lie inside the array, reading the view in
order yields exactly that segment of `connectivity`. -/
theorem C1_aos_getIndices (c : ConnectivityVTKAOS) (i offset count : Int)
    (hoff : c.IndexOffsets.Get i = some offset)
    (hcount : c.Connectivity.Get offset = some count) :
    ∃ v : VecFromPortal, c.GetIndices i = some v ∧
      v.Portal = c.Connectivity ∧
      v.NumComponents = toIdComponent count ∧
      (-2147483648 ≤ count → count ≤ 2147483647 → v.NumComponents.val = count) ∧
      v.Offset = offset + 1 ∧
      (∀ k : Int, v.getComponent k = c.Connectivity.Get (offset + 1 + k)) ∧
      v.positions = (List.range v.NumComponents.val.toNat).map
        (fun k : Nat => offset + 1 + (k : Int)) ∧
      (offset + 1 + (v.NumComponents.val.toNat : Int) ≤ c.Connectivity.GetNumberOfValues →
        v.read = some ((c.Connectivity.data.drop (offset + 1).toNat).take
          v.NumComponents.val.toNat)) := by
  refine ⟨⟨c.Connectivity, toIdComponent count, offset + 1⟩, ?_, rfl, rfl, ?_, rfl, ?_, ?_, ?_⟩
  · simp [ConnectivityVTKAOS.GetIndices, hoff, hcount]
  · intro hlo hhi
    exact toIdComponent_of_inRange count hlo hhi
  · intro k
    simp [VecFromPortal.getComponent, add_comm]
  · simp [VecFromPortal.positions, add_comm]
  · intro hlen
    have h0 := (ArrayPortal.Get_eq_some _ _ _ hcount).1
    have h := VecFromPortal.readFrom_eq ⟨c.Connectivity, toIdComponent count, offset + 1⟩
      (toIdComponent count).val.toNat 0 (by simp; omega) (by simpa using hlen)
    simpa [VecFromPortal.read] using h

/-- C1, witness: the scenario of the specification.  In `aosScenario` the view
of cell `0` reads `[0, 1, 2]` and the view of cell `1` reads `[3, 4]`. -/
theorem C1_aos_getIndices_witness :
    aosScenario.IndexOffsets.Get 1 = some 4 ∧
    aosScenario.Connectivity.Get 4 = some 2 ∧
    (∃ v : VecFromPortal, aosScenario.GetIndices 1 = some v ∧
      v.NumComponents.val = 2 ∧ v.Offset = 5 ∧ v.read = some [3, 4]) ∧
    (∃ v : VecFromPortal, aosScenario.GetIndices 0 = some v ∧
      v.NumComponents.val = 3 ∧ v.Offset = 1 ∧ v.read = some [0, 1, 2]) := by
  refine ⟨by decide, by decide, ?_, ?_⟩
  · obtain ⟨v, hv, _, hn, hval, ho, _, _, hread⟩ :=
      C1_aos_getIndices aosScenario 1 4 2 (by decide) (by decide)
    have hn2 : v.NumComponents.val = 2 := hval (by decide) (by decide)
    refine ⟨v, hv, hn2, by simpa using ho, ?_⟩
    rw [hn2] at hread
    exact hread (by decide)
  · obtain ⟨v, hv, _, hn, hval, ho, _, _, hread⟩ :=
      C1_aos_getIndices aosScenario 0 0 3 (by decide) (by decide)
    have hn3 : v.NumComponents.val = 3 := hval (by decide) (by decide)
    refine ⟨v, hv, hn3, by simpa using ho, ?_⟩
    rw [hn3] at hread
    exact hread (by decide)

/-- C2, as stated, fails: in `reverseWideOffsets` the two offsets of point `0`
are `0` and `2^32 + 2`, and the view returned by `GetIndices 0` has length `2`,
not `indexOffsets[1] - indexOffsets[0]`. -/
theorem C2_length_differs_from_wide_difference :
    reverseWideOffsets.GetNumberOfElements = 1 ∧
    reverseWideOffsets.IndexOffsets.Get 0 = some 0 ∧
    reverseWideOffsets.IndexOffsets.Get 1 = some 4294967298 ∧
    reverseWideOffsets.GetIndices 0
      = some ⟨reverseWideOffsets.Connectivity, ⟨2, by decide⟩, 0⟩ ∧
    (2 : Int) ≠ 4294967298 - 0 ∧
    (reverseWideOffsets.GetIndices 0).bind VecFromPortal.read = some [0, 2] := by
  decide

/-- C2 (amended): in a reverse view, for every point index `i` in
`[0, numberOfElements())` both offsets `offset = indexOffsets[i]` and
`next = indexOffsets[i+1]` are readable, and `GetIndices i` returns the view
over `connectivity` that starts at `offset` (no slot is skipped) and whose
length is `next - offset` narrowed to 32 bits; the length equals
`next - offset` whenever that difference lies in `[-2^31, 2^31)`; component `k`
of the view is `connectivity[offset + k]`, its positions are `offset, ...,
offset + length - 1`, and when these lie inside the array, reading the view in
order yields exactly that segment of `connectivity`. -/
theorem C2_reverse_getIndices (c : ReverseConnectivityVTK) (i : Int)
    (h0 : 0 ≤ i) (hn : i < c.GetNumberOfElements) :
    ∃ (offset next : Int) (v : VecFromPortal),
      c.IndexOffsets.Get i = some offset ∧
      c.IndexOffsets.Get (i + 1) = some next ∧
      c.GetIndices i = some v ∧
      v.Portal = c.Connectivity ∧
      v.NumComponents = toIdComponent (next - offset) ∧
      (-2147483648 ≤ next - offset → next - offset ≤ 2147483647 →
        v.NumComponents.val = next - offset) ∧
      v.Offset = offset ∧
      (∀ k : Int, v.getComponent k = c.Connectivity.Get (offset + k)) ∧
      v.positions = (List.range v.NumComponents.val.toNat).map
        (fun k : Nat => offset + (k : Int)) ∧
      (0 ≤ offset →
        offset + (v.NumComponents.val.toNat : Int) ≤ c.Connectivity.GetNumberOfValues →
        v.read = some ((c.Connectivity.data.drop offset.toNat).take
          v.NumComponents.val.toNat)) := by
  have hn1 : i + 1 < c.IndexOffsets.GetNumberOfValues := by
    unfold ReverseConnectivityVTK.GetNumberOfElements at hn
    omega
  obtain ⟨offset, hoff⟩ := ArrayPortal.Get_isSome c.IndexOffsets i h0 (by omega)
  obtain ⟨next, hnext⟩ := ArrayPortal.Get_isSome c.IndexOffsets (i + 1) (by omega) hn1
  refine ⟨offset, next, ⟨c.Connectivity, toIdComponent (next - offset), offset⟩,
    hoff, hnext, ?_, rfl, rfl, ?_, rfl, ?_, ?_, ?_⟩
  · simp [ReverseConnectivityVTK.GetIndices, hoff, hnext]
  · intro hlo hhi
    exact toIdComponent_of_inRange (next - offset) hlo hhi
  · intro k
    simp [VecFromPortal.getComponent, add_comm]
  · simp [VecFromPortal.positions, add_comm]
  · intro hpos hlen
    have h := VecFromPortal.readFrom_eq ⟨c.Connectivity, toIdComponent (next - offset), offset⟩
      (toIdComponent (next - offset)).val.toNat 0 (by simpa using hpos) (by simpa using hlen)
    simpa [VecFromPortal.read] using h

/-- C2, witness: the scenario of the specification.  In `reverseScenario` the
views of points `0`, `1`, `2` read `[0, 2]`, `[1, 0]`, `[1, 2]`. -/
theorem C2_reverse_getIndices_witness :
    (0 : Int) ≤ 1 ∧ 1 < reverseScenario.GetNumberOfElements ∧
    (∃ v : VecFromPortal, reverseScenario.GetIndices 1 = some v ∧
      v.NumComponents.val = 2 ∧ v.Offset = 2 ∧ v.read = some [1, 0]) ∧
    (reverseScenario.GetIndices 0).bind VecFromPortal.read = some [0, 2] ∧
    (reverseScenario.GetIndices 2).bind VecFromPortal.read = some [1, 2] := by
  refine ⟨by decide, by decide, ?_, by decide, by decide⟩
  obtain ⟨offset, next, v, hoff, hnext, hv, _, _, hval, ho, _, _, hread⟩ :=
    C2_reverse_getIndices reverseScenario 1 (by decide) (by decide)
  have hoff2 : offset = 2 := by
    have : reverseScenario.IndexOffsets.Get 1 = some 2 := by decide
    rw [this] at hoff
    exact (Option.some.inj hoff).symm
  have hnext4 : next = 4 := by
    have : reverseScenario.IndexOffsets.Get (1 + 1) = some 4 := by decide
    rw [this] at hnext
    exact (Option.some.inj hnext).symm
  subst hoff2 hnext4
  have hn2 : v.NumComponents.val = 2 := by
    have := hval (by decide) (by decide)
    simpa using this
  refine ⟨v, hv, hn2, ho, ?_⟩
  rw [hn2] at hread
  exact hread (by decide) (by decide)

/-- C3, as stated, fails: for cell index `2^62` the view of the uniform-shape
scenario (`pointsPerCell = 3`) starts at `1`, not at `2^62 * (3 + 1) + 1`, and
for `pointsPerCell = 2^31 - 1` the view of cell `1` starts at `-2^31 + 1`, not
at `1 * (2^31 - 1 + 1) + 1`. -/
theorem C3_start_wraps_on_overflow :
    (4611686018427387904 : Int) ≤ 9223372036854775807 ∧
    singleTypeScenario.GetIndices 4611686018427387904
      = ⟨singleTypeScenario.Connectivity, ⟨3, by decide⟩, 1⟩ ∧
    (1 : Int) ≠ 4611686018427387904 * (3 + 1) + 1 ∧
    singleTypeWidest.GetIndices 1
      = ⟨singleTypeWidest.Connectivity, ⟨2147483647, by decide⟩, -2147483647⟩ ∧
    (-2147483647 : Int) ≠ 1 * (2147483647 + 1) + 1 := by
  decide

/-- C3 (amended): in a uniform-shape view, for every cell index `i`,
`GetIndices i` is a view over `connectivity` of length `pointsPerCell`.  When
`pointsPerCell + 1` fits in 32 bits and `i * (pointsPerCell + 1)` and
`i * (pointsPerCell + 1) + 1` fit in 64 bits, the view starts at
`i * (pointsPerCell + 1) + 1`, component `k` of the view is
`connectivity[i * (pointsPerCell + 1) + 1 + k]`, its positions are
`i * (pointsPerCell + 1) + 1, ..., i * (pointsPerCell + 1) + pointsPerCell`, and
when these lie inside the array, reading the view in order yields exactly that
segment of `connectivity`.  The range conditions hold whenever the covered
positions lie inside an array whose length is a `vtkm::Id`.  In the scenario of
the specification the view of cell `1` reads `[3, 4, 5]`. -/
theorem C3_singleType_getIndices :
    (∀ (c : ConnectivityVTKSingleType) (i : Int),
      (c.GetIndices i).Portal = c.Connectivity ∧
      (c.GetIndices i).NumComponents = c.NumberOfPointsPerCell) ∧
    (∀ (c : ConnectivityVTKSingleType) (i : Int),
      c.NumberOfPointsPerCell.val < 2147483647 →
      -9223372036854775808 ≤ i * (c.NumberOfPointsPerCell.val + 1) →
      i * (c.NumberOfPointsPerCell.val + 1) + 1 ≤ 9223372036854775807 →
      (c.GetIndices i).Offset = i * (c.NumberOfPointsPerCell.val + 1) + 1 ∧
      (∀ k : Int, (c.GetIndices i).getComponent k
        = c.Connectivity.Get (i * (c.NumberOfPointsPerCell.val + 1) + 1 + k)) ∧
      (c.GetIndices i).positions = (List.range c.NumberOfPointsPerCell.val.toNat).map
        (fun k : Nat => i * (c.NumberOfPointsPerCell.val + 1) + 1 + (k : Int)) ∧
      (0 ≤ i * (c.NumberOfPointsPerCell.val + 1) + 1 →
        i * (c.NumberOfPointsPerCell.val + 1) + 1 + (c.NumberOfPointsPerCell.val.toNat : Int)
          ≤ c.Connectivity.GetNumberOfValues →
        (c.GetIndices i).read
          = some ((c.Connectivity.data.drop
              (i * (c.NumberOfPointsPerCell.val + 1) + 1).toNat).take
              c.NumberOfPointsPerCell.val.toNat))) ∧
    (∀ (c : ConnectivityVTKSingleType) (i : Int),
      c.NumberOfPointsPerCell.val < 2147483647 →
      c.Connectivity.GetNumberOfValues ≤ 9223372036854775807 →
      0 ≤ i * (c.NumberOfPointsPerCell.val + 1) + 1 →
      i * (c.NumberOfPointsPerCell.val + 1) + 1 + (c.NumberOfPointsPerCell.val.toNat : Int)
        ≤ c.Connectivity.GetNumberOfValues →
      (c.GetIndices i).Offset = i * (c.NumberOfPointsPerCell.val + 1) + 1 ∧
      (c.GetIndices i).read
        = some ((c.Connectivity.data.drop
            (i * (c.NumberOfPointsPerCell.val + 1) + 1).toNat).take
            c.NumberOfPointsPerCell.val.toNat)) ∧
    singleTypeScenario.GetIndices 1 = ⟨singleTypeScenario.Connectivity, ⟨3, by decide⟩, 5⟩ ∧
    (singleTypeScenario.GetIndices 1).read = some [3, 4, 5] := by
  have hmain : ∀ (c : ConnectivityVTKSingleType) (i : Int),
      c.NumberOfPointsPerCell.val < 2147483647 →
      -9223372036854775808 ≤ i * (c.NumberOfPointsPerCell.val + 1) →
      i * (c.NumberOfPointsPerCell.val + 1) + 1 ≤ 9223372036854775807 →
      (c.GetIndices i).Offset = i * (c.NumberOfPointsPerCell.val + 1) + 1 ∧
      (∀ k : Int, (c.GetIndices i).getComponent k
        = c.Connectivity.Get (i * (c.NumberOfPointsPerCell.val + 1) + 1 + k)) ∧
      (c.GetIndices i).positions = (List.range c.NumberOfPointsPerCell.val.toNat).map
        (fun k : Nat => i * (c.NumberOfPointsPerCell.val + 1) + 1 + (k : Int)) ∧
      (0 ≤ i * (c.NumberOfPointsPerCell.val + 1) + 1 →
        i * (c.NumberOfPointsPerCell.val + 1) + 1 + (c.NumberOfPointsPerCell.val.toNat : Int)
          ≤ c.Connectivity.GetNumberOfValues →
        (c.GetIndices i).read
          = some ((c.Connectivity.data.drop
              (i * (c.NumberOfPointsPerCell.val + 1) + 1).toNat).take
              c.NumberOfPointsPerCell.val.toNat)) := by
    intro c i hppc hlo hhi
    have hoff := ConnectivityVTKSingleType.GetIndices_Offset c i hppc hlo hhi
    have hport : (c.GetIndices i).Portal = c.Connectivity := rfl
    have hnum : (c.GetIndices i).NumComponents = c.NumberOfPointsPerCell := rfl
    refine ⟨hoff, ?_, ?_, ?_⟩
    · intro k
      rw [VecFromPortal.getComponent, hoff, hport, add_comm]
    · rw [VecFromPortal.positions, hoff, hnum]
      simp [add_comm]
    · intro hpos hlen
      have h := VecFromPortal.readFrom_eq (c.GetIndices i)
        c.NumberOfPointsPerCell.val.toNat 0
        (by rw [hoff]; simpa using hpos) (by rw [hoff, hport]; simpa using hlen)
      rw [hoff, hport] at h
      simpa [VecFromPortal.read, hnum] using h
  refine ⟨fun c i => ⟨rfl, rfl⟩, hmain, ?_, by decide, by decide⟩
  intro c i hppc hlen hpos hfit
  have hhi : i * (c.NumberOfPointsPerCell.val + 1) + 1 ≤ 9223372036854775807 := by omega
  obtain ⟨hoff, _, _, hread⟩ := hmain c i hppc (by omega) hhi
  exact ⟨hoff, hread hpos hfit⟩

/-- C3, witness: the amended statement at cell `1` of the scenario of the
specification: the range conditions hold, the view starts at `5`, and its
covered positions `5, 6, 7` lie inside the array. -/
theorem C3_singleType_getIndices_witness :
    (3 : Int) < 2147483647 ∧
    (-9223372036854775808 : Int) ≤ 1 * (3 + 1) ∧
    (1 : Int) * (3 + 1) + 1 ≤ 9223372036854775807 ∧
    (singleTypeScenario.GetIndices 1).Offset = 5 ∧
    (singleTypeScenario.GetIndices 1).read
      = some ((singleTypeScenario.Connectivity.data.drop 5).take 3) :=
  ⟨by decide, by decide, by decide,
    (C3_singleType_getIndices.2.1 singleTypeScenario 1 (by decide) (by decide) (by decide)).1,
    (C3_singleType_getIndices.2.1 singleTypeScenario 1 (by decide) (by decide)
      (by decide)).2.2.2 (by decide) (by decide)⟩

/-- C4, as stated, fails: `reverseShortOffsets` has non-decreasing offsets
`[1, 3, 5]` and both of its entries lie within the six entries of the flattened
array, yet the concatenation of the views of all its points is `[2, 1, 0, 1]`,
which is not the flattened array `[0, 2, 1, 0, 1, 2]`: the entries before the
first offset and from the last offset on are missing. -/
theorem C4_concat_misses_uncovered_ends :
    reverseShortOffsets.IndexOffsets.data.Chain' (fun a b => a ≤ b) ∧
    reverseShortOffsets.entriesWithinBounds = true ∧
    reverseShortOffsets.GetNumberOfElements = 2 ∧
    reverseShortOffsets.GetIndices 0
      = some ⟨reverseShortOffsets.Connectivity, ⟨2, by decide⟩, 1⟩ ∧
    reverseShortOffsets.GetIndices 1
      = some ⟨reverseShortOffsets.Connectivity, ⟨2, by decide⟩, 3⟩ ∧
    reverseShortOffsets.readAll = some [2, 1, 0, 1] ∧
    reverseShortOffsets.readAll ≠ some reverseShortOffsets.Connectivity.data :=
  ⟨by simp [reverseShortOffsets], by decide, by decide, by decide, by decide, by decide,
    by decide⟩

/-- C4 (amended): for every reverse view whose offsets are non-decreasing,
begin with `0`, end with the length of the flattened index array, and in which
no entry has `2^31` indices or more, the concatenation of the reads of
`GetIndices 0`, ..., `GetIndices (numberOfElements() - 1)` in index order is
exactly the flattened index array. -/
theorem C4_reverse_concat_reconstructs (c : ReverseConnectivityVTK)
    (hmono : c.IndexOffsets.data.Chain' (fun a b => a ≤ b))
    (hfit : c.IndexOffsets.data.Chain' (fun a b => b - a ≤ 2147483647))
    (hfirst : c.IndexOffsets.Get 0 = some 0)
    (hlast : c.IndexOffsets.Get c.GetNumberOfElements
      = some c.Connectivity.GetNumberOfValues) :
    c.readAll = some c.Connectivity.data := by
  have hn : 0 ≤ c.GetNumberOfElements := (ArrayPortal.Get_eq_some _ _ _ hlast).1
  have h := (ReverseConnectivityVTK.readRange_eq_drop c hmono hfit hlast
    c.GetNumberOfElements.toNat 0 0 (le_refl _) (by omega) hfirst (le_refl _)).2
  simpa [ReverseConnectivityVTK.readAll] using h

/-- C4, witness: the scenario of the specification satisfies the four
conditions, and the concatenation of its three views is its flattened array. -/
theorem C4_reverse_concat_reconstructs_witness :
    reverseScenario.IndexOffsets.data.Chain' (fun a b => a ≤ b) ∧
    reverseScenario.IndexOffsets.data.Chain' (fun a b => b - a ≤ 2147483647) ∧
    reverseScenario.IndexOffsets.Get 0 = some 0 ∧
    reverseScenario.IndexOffsets.Get reverseScenario.GetNumberOfElements
      = some reverseScenario.Connectivity.GetNumberOfValues ∧
    reverseScenario.readAll = some [0, 2, 1, 0, 1, 2] :=
  ⟨by simp [reverseScenario], by simp [reverseScenario], by decide, by decide,
    C4_reverse_concat_reconstructs reverseScenario (by simp [reverseScenario])
      (by simp [reverseScenario]) (by decide) (by decide)⟩

/-- C5: in a reverse view, `GetNumberOfElements` is the length of the offset
array minus one, as a signed integer (`-1` for an empty offset array); a view
whose offset array has `numberOfPoints + 1` entries reports `numberOfPoints`
elements, `3` in the scenario of the specification; the result is the same for
every flattened index array. -/
theorem C5_reverse_numberOfElements :
    (∀ c : ReverseConnectivityVTK,
      c.GetNumberOfElements = (c.IndexOffsets.data.length : Int) - 1) ∧
    (∀ (conn : ArrayPortal Int) (offsets : List Int) (numberOfPoints : Nat),
      offsets.length = numberOfPoints + 1 →
      (ReverseConnectivityVTK.mk conn ⟨offsets⟩).GetNumberOfElements = numberOfPoints) ∧
    (∀ (conn conn2 : ArrayPortal Int) (offsets : ArrayPortal Int),
      (ReverseConnectivityVTK.mk conn offsets).GetNumberOfElements
        = (ReverseConnectivityVTK.mk conn2 offsets).GetNumberOfElements) ∧
    (∀ conn : ArrayPortal Int,
      (ReverseConnectivityVTK.mk conn ⟨[0, 2, 4, 6]⟩).GetNumberOfElements = 3) ∧
    (∀ conn : ArrayPortal Int,
      (ReverseConnectivityVTK.mk conn ⟨[]⟩).GetNumberOfElements = -1) ∧
    reverseScenario.GetNumberOfElements = 3 := by
  refine ⟨fun c => rfl, ?_, fun _ _ _ => rfl, fun _ => rfl, fun _ => rfl, by decide⟩
  intro conn offsets numberOfPoints hlen
  simp [ReverseConnectivityVTK.GetNumberOfElements, ArrayPortal.GetNumberOfValues, hlen]

/-- C5, witness: an offset array of `3 + 1` entries over an empty flattened
array reports `3` elements. -/
theorem C5_reverse_numberOfElements_witness :
    [(0 : Int), 2, 4, 6].length = 3 + 1 ∧
    (ReverseConnectivityVTK.mk ⟨[]⟩ ⟨[0, 2, 4, 6]⟩).GetNumberOfElements = ((3 : Nat) : Int) :=
  ⟨by decide, C5_reverse_numberOfElements.2.1 ⟨[]⟩ [0, 2, 4, 6] 3 (by decide)⟩

/-- C6: in every variable-shape view, `GetNumberOfElements` is the length of
the shapes array; for every `i` in `[0, numberOfElements())` the read of
`shapes` at `i` is inside the array and `GetCellShape i` returns that entry
unchanged; `GetCellShape` is the read of `shapes` at every index; neither
result depends on the connectivity and offset arrays.  The scenario of the
specification has two cells, a triangle (tag `5`) and a line (tag `3`). -/
theorem C6_aos_cellShape :
    (∀ c : ConnectivityVTKAOS, c.GetNumberOfElements = (c.Shapes.data.length : Int)) ∧
    (∀ (c : ConnectivityVTKAOS) (i : Int), 0 ≤ i → i < c.GetNumberOfElements →
      ∃ tag : Fin 256, c.Shapes.data[i.toNat]? = some tag ∧
        c.Shapes.Get i = some tag ∧ c.GetCellShape i = some tag) ∧
    (∀ (c : ConnectivityVTKAOS) (i : Int), c.GetCellShape i = c.Shapes.Get i) ∧
    (∀ (shapes : ArrayPortal (Fin 256)) (conn conn2 offsets offsets2 : ArrayPortal Int)
      (i : Int),
      (ConnectivityVTKAOS.mk shapes conn offsets).GetCellShape i
        = (ConnectivityVTKAOS.mk shapes conn2 offsets2).GetCellShape i ∧
      (ConnectivityVTKAOS.mk shapes conn offsets).GetNumberOfElements
        = (ConnectivityVTKAOS.mk shapes conn2 offsets2).GetNumberOfElements) ∧
    aosScenario.GetNumberOfElements = 2 ∧
    aosScenario.GetCellShape 0 = some 5 ∧
    aosScenario.GetCellShape 1 = some 3 := by
  refine ⟨fun c => rfl, ?_, fun c i => rfl, fun _ _ _ _ _ _ => ⟨rfl, rfl⟩,
    by decide, by decide, by decide⟩
  intro c i h0 hn
  obtain ⟨tag, htag⟩ := ArrayPortal.Get_isSome c.Shapes i h0 hn
  refine ⟨tag, ?_, htag, htag⟩
  rw [← ArrayPortal.Get_of_nonneg c.Shapes i h0]
  exact htag

/-- C6, witness: cell `1` of the scenario of the specification lies in
`[0, numberOfElements())`, and its shape is a line (tag `3`). -/
theorem C6_aos_cellShape_witness :
    (0 : Int) ≤ 1 ∧ 1 < aosScenario.GetNumberOfElements ∧
    aosScenario.GetCellShape 1 = some 3 := by
  obtain ⟨tag, htag, _, hshape⟩ :=
    C6_aos_cellShape.2.1 aosScenario 1 (by decide) (by decide)
  have h3 : aosScenario.Shapes.data[(1 : Int).toNat]? = some 3 := by decide
  rw [h3] at htag
  rw [← Option.some.inj htag] at hshape
  exact ⟨by decide, by decide, hshape⟩

/-- C7: a uniform-shape view constructed with shape tag `t` returns `t` from
`GetCellShape` at every index, inside `[0, cellCount)` or not; the result is
the same for any two indices and for every connectivity array, cell count and
number of points per cell. -/
theorem C7_singleType_cellShape (conn conn2 : ArrayPortal Int) (numCells numCells2 : Int)
    (numPointsPerCell numPointsPerCell2 : IdComponent) (t : Fin 256) (i j : Int) :
    (ConnectivityVTKSingleType.mk conn numCells numPointsPerCell t).GetCellShape i = t ∧
    (ConnectivityVTKSingleType.mk conn numCells numPointsPerCell t).GetCellShape i
      = (ConnectivityVTKSingleType.mk conn numCells numPointsPerCell t).GetCellShape j ∧
    (ConnectivityVTKSingleType.mk conn numCells numPointsPerCell t).GetCellShape i
      = (ConnectivityVTKSingleType.mk conn2 numCells2 numPointsPerCell2 t).GetCellShape j :=
  ⟨rfl, rfl, rfl⟩

/-- C8, as stated, fails.  First, for `pointsPerCell = 2^31 - 1`: in
`aosWidestCells`, two cells over `2 * (pointsPerCell + 1)` entries, the count
slots `0` and `2^31` hold `pointsPerCell` and the offsets are
`i * (pointsPerCell + 1)`, yet for cell `1` the variable-shape view
starts at `2^31 + 1` and the uniform-shape view over the same array starts at
`-2^31 + 1`.  Second, in `aosExtraShape` the count slots and offsets are those
of two triangles and every shape tag equals the tag of the uniform-shape
scenario, yet the variable-shape view has `3` elements and the uniform-shape
view `2`. -/
theorem C8_views_differ :
    (∀ i : Int, 0 ≤ i → i < 2 →
      aosWidestCells.Connectivity.Get (i * (2147483647 + 1)) = some 2147483647) ∧
    (∀ i : Int, 0 ≤ i → i < 2 →
      aosWidestCells.IndexOffsets.Get i = some (i * (2147483647 + 1))) ∧
    aosWidestCells.GetIndices 1
      = some ⟨aosWidestCells.Connectivity, ⟨2147483647, by decide⟩, 2147483649⟩ ∧
    (ConnectivityVTKSingleType.mk aosWidestCells.Connectivity 2
        ⟨2147483647, by decide⟩ 5).GetIndices 1
      = ⟨aosWidestCells.Connectivity, ⟨2147483647, by decide⟩, -2147483647⟩ ∧
    (2147483649 : Int) ≠ -2147483647 ∧
    (∀ i : Int, 0 ≤ i → i < 2 →
      aosExtraShape.Connectivity.Get (i * (3 + 1)) = some 3) ∧
    (∀ i : Int, 0 ≤ i → i < 2 → aosExtraShape.IndexOffsets.Get i = some (i * (3 + 1))) ∧
    (∀ i : Int, 0 ≤ i → i < aosExtraShape.Shapes.GetNumberOfValues →
      aosExtraShape.Shapes.Get i = some singleTypeScenario.ShapeType) ∧
    aosExtraShape.Connectivity = singleTypeScenario.Connectivity ∧
    aosExtraShape.GetNumberOfElements = 3 ∧
    singleTypeScenario.GetNumberOfElements = 2 := by
  have hslot : ∀ i : Int, 0 ≤ i → i < 2 →
      aosWidestCells.Connectivity.Get (i * (2147483647 + 1)) = some 2147483647 := by
    intro i h0 h2
    exact ArrayPortal.Get_replicate 4294967296 2147483647 _ (by omega) (by omega)
  have hoffs : ∀ i : Int, 0 ≤ i → i < 2 →
      aosWidestCells.IndexOffsets.Get i = some (i * (2147483647 + 1)) := by
    intro i h0 h2
    have hi : i = 0 ∨ i = 1 := by omega
    rcases hi with rfl | rfl <;> rfl
  refine ⟨hslot, hoffs, ?_, rfl, by decide, ?_, ?_, ?_, rfl, rfl, rfl⟩
  · have h1 : aosWidestCells.IndexOffsets.Get 1 = some 2147483648 := rfl
    have h2 : aosWidestCells.Connectivity.Get 2147483648 = some 2147483647 :=
      ArrayPortal.Get_replicate 4294967296 2147483647 2147483648 (by decide) (by decide)
    have hlen : toIdComponent 2147483647 = ⟨2147483647, by decide⟩ := by decide
    have hsum : (2147483648 : Int) + 1 = 2147483649 := by decide
    rw [ConnectivityVTKAOS.GetIndices_eq aosWidestCells 1 2147483648 2147483647 h1 h2,
      hlen, hsum]
  · intro i h0 h2
    have hi : i = 0 ∨ i = 1 := by omega
    rcases hi with rfl | rfl <;> decide
  · intro i h0 h2
    have hi : i = 0 ∨ i = 1 := by omega
    rcases hi with rfl | rfl <;> decide
  · intro i h0 h3
    have hi : i = 0 ∨ i = 1 ∨ i = 2 := by
      have : aosExtraShape.Shapes.GetNumberOfValues = 3 := rfl
      omega
    rcases hi with rfl | rfl | rfl <;> decide

/-- C8 (amended): let `pointsPerCell` be below `2^31 - 1`, let the length of the
flattened array be a `vtkm::Id`, let the array hold `pointsPerCell` in the
count slot `i * (pointsPerCell + 1)` of every cell `i` in `[0, n)`, and let
`indexOffsets[i] = i * (pointsPerCell + 1)` there.  Then for every `i` in
`[0, n)` the variable-shape view over `(shapes, connectivity, indexOffsets)`
and the uniform-shape view over `(connectivity, n, pointsPerCell, tag)` return
the same Indices View from `GetIndices i`: same array, same start
`i * (pointsPerCell + 1) + 1`, same length, hence the same components.  The
two views have the same number of elements exactly when the shapes array has
`n` entries; if the shapes array consists of `n` entries equal to `tag`, then
`GetNumberOfElements` and `GetCellShape` agree too. -/
theorem C8_format_compatibility (shapes : ArrayPortal (Fin 256))
    (conn offsets : ArrayPortal Int) (n : Int) (pointsPerCell : IdComponent) (tag : Fin 256)
    (hppc : pointsPerCell.val < 2147483647)
    (hlen : conn.GetNumberOfValues ≤ 9223372036854775807)
    (hcount : ∀ i : Int, 0 ≤ i → i < n →
      conn.Get (i * (pointsPerCell.val + 1)) = some pointsPerCell.val)
    (hoffsets : ∀ i : Int, 0 ≤ i → i < n →
      offsets.Get i = some (i * (pointsPerCell.val + 1))) :
    (∀ i : Int, 0 ≤ i → i < n →
      (ConnectivityVTKAOS.mk shapes conn offsets).GetIndices i
        = some ((ConnectivityVTKSingleType.mk conn n pointsPerCell tag).GetIndices i) ∧
      ((ConnectivityVTKSingleType.mk conn n pointsPerCell tag).GetIndices i).Offset
        = i * (pointsPerCell.val + 1) + 1 ∧
      ((ConnectivityVTKAOS.mk shapes conn offsets).GetIndices i).bind VecFromPortal.read
        = ((ConnectivityVTKSingleType.mk conn n pointsPerCell tag).GetIndices i).read) ∧
    ((ConnectivityVTKAOS.mk shapes conn offsets).GetNumberOfElements
        = (ConnectivityVTKSingleType.mk conn n pointsPerCell tag).GetNumberOfElements
      ↔ (shapes.data.length : Int) = n) ∧
    (shapes.data = List.replicate n.toNat tag → 0 ≤ n →
      (ConnectivityVTKAOS.mk shapes conn offsets).GetNumberOfElements
        = (ConnectivityVTKSingleType.mk conn n pointsPerCell tag).GetNumberOfElements ∧
      ∀ i : Int, 0 ≤ i → i < n →
        (ConnectivityVTKAOS.mk shapes conn offsets).GetCellShape i
          = some ((ConnectivityVTKSingleType.mk conn n pointsPerCell tag).GetCellShape i)) := by
  have hstart : ∀ i : Int, 0 ≤ i → i < n →
      ((ConnectivityVTKSingleType.mk conn n pointsPerCell tag).GetIndices i).Offset
        = i * (pointsPerCell.val + 1) + 1 := by
    intro i h0 hn
    have hslot := ArrayPortal.Get_eq_some _ _ _ (hcount i h0 hn)
    exact ConnectivityVTKSingleType.GetIndices_Offset
      (ConnectivityVTKSingleType.mk conn n pointsPerCell tag) i hppc
      (by have := hslot.1; show -9223372036854775808 ≤ i * (pointsPerCell.val + 1); omega)
      (by have := hslot.2; show i * (pointsPerCell.val + 1) + 1 ≤ 9223372036854775807; omega)
  have hidx : ∀ i : Int, 0 ≤ i → i < n →
      (ConnectivityVTKAOS.mk shapes conn offsets).GetIndices i
        = some ((ConnectivityVTKSingleType.mk conn n pointsPerCell tag).GetIndices i) := by
    intro i h0 hn
    have hview : (ConnectivityVTKSingleType.mk conn n pointsPerCell tag).GetIndices i
        = ⟨conn, pointsPerCell, i * (pointsPerCell.val + 1) + 1⟩ := by
      have h := hstart i h0 hn
      show VecFromPortal.mk conn pointsPerCell _ = _
      congr 1
    rw [hview]
    simp only [ConnectivityVTKAOS.GetIndices, hoffsets i h0 hn, hcount i h0 hn,
      toIdComponent_val]
  refine ⟨fun i h0 hn => ⟨hidx i h0 hn, hstart i h0 hn, ?_⟩, Iff.rfl, ?_⟩
  · rw [hidx i h0 hn]; rfl
  · intro hshapes hn0
    constructor
    · show (shapes.data.length : Int) = n
      rw [hshapes, List.length_replicate]
      omega
    · intro i h0 hn
      show shapes.Get i = some tag
      rw [ArrayPortal.Get_of_nonneg shapes i h0, hshapes, List.getElem?_replicate,
        if_pos (by omega)]

/-- C8, witness: the two triangles of the uniform-shape scenario, seen through
a variable-shape view with offsets `[0, 4]` and through the uniform-shape view;
both return `[3, 4, 5]` for cell `1`. -/
theorem C8_format_compatibility_witness :
    (3 : Int) < 2147483647 ∧
    aosTwoTriangles.Connectivity.GetNumberOfValues ≤ 9223372036854775807 ∧
    (∀ i : Int, 0 ≤ i → i < 2 →
      aosTwoTriangles.Connectivity.Get (i * (3 + 1)) = some 3) ∧
    (∀ i : Int, 0 ≤ i → i < 2 →
      aosTwoTriangles.IndexOffsets.Get i = some (i * (3 + 1))) ∧
    aosTwoTriangles.GetIndices 1 = some (singleTypeScenario.GetIndices 1) ∧
    (aosTwoTriangles.GetIndices 1).bind VecFromPortal.read = some [3, 4, 5] := by
  have hcount : ∀ i : Int, 0 ≤ i → i < 2 →
      aosTwoTriangles.Connectivity.Get (i * (3 + 1)) = some 3 := by
    intro i h0 h2
    have hi : i = 0 ∨ i = 1 := by omega
    rcases hi with rfl | rfl <;> decide
  have hoffsets : ∀ i : Int, 0 ≤ i → i < 2 →
      aosTwoTriangles.IndexOffsets.Get i = some (i * (3 + 1)) := by
    intro i h0 h2
    have hi : i = 0 ∨ i = 1 := by omega
    rcases hi with rfl | rfl <;> decide
  have h := (C8_format_compatibility aosTwoTriangles.Shapes aosTwoTriangles.Connectivity
    aosTwoTriangles.IndexOffsets 2 ⟨3, by decide⟩ 5 (by decide) (by decide)
    hcount hoffsets).1 1 (by decide) (by decide)
  exact ⟨by decide, by decide, hcount, hoffsets, h.1, by decide⟩

/-- C11, as stated, fails: `reverseHugeEntry` has the non-empty, non-decreasing
offsets `[0, 2^31]`, starting at `0` and ending at the length `2^31` of its
flattened array, and the view returned by `GetIndices 0` has the negative
length `-2^31`. -/
theorem C11_length_negative_for_huge_entry :
    reverseHugeEntry.IndexOffsets.data ≠ [] ∧
    reverseHugeEntry.IndexOffsets.data.Chain' (fun a b => a ≤ b) ∧
    reverseHugeEntry.IndexOffsets.Get 0 = some 0 ∧
    reverseHugeEntry.GetNumberOfElements = 1 ∧
    reverseHugeEntry.IndexOffsets.Get 1 = some 2147483648 ∧
    (2147483648 : Int) ≤ reverseHugeEntry.Connectivity.GetNumberOfValues ∧
    reverseHugeEntry.GetIndices 0
      = some ⟨reverseHugeEntry.Connectivity, ⟨-2147483648, by decide⟩, 0⟩ ∧
    (-2147483648 : Int) < 0 := by
  refine ⟨?_, ?_, rfl, rfl, rfl, ?_, rfl, by decide⟩
  · show ([0, 2147483648] : List Int) ≠ []
    exact List.cons_ne_nil _ _
  · show List.Chain' (fun a b : Int => a ≤ b) [0, 2147483648]
    simp
  · show (2147483648 : Int) ≤ ((List.replicate 2147483648 (0 : Int)).length : Int)
    rw [List.length_replicate]
    decide

/-- C11 (amended): let the offsets of a reverse view be non-decreasing, start
at a non-negative value and end at a value that does not exceed the length of
the flattened index array, and let no two consecutive offsets be `2^31` or more
apart.  Then for every `i` in `[0, numberOfElements())` both offset reads are
inside the offset array, the length of the view returned by `GetIndices i` is
the non-negative number `indexOffsets[i+1] - indexOffsets[i]`, the covered range
`[indexOffsets[i], indexOffsets[i+1])` lies inside the flattened array, and the
view of point `i + 1`, when `i + 1` is a point, starts exactly where the view
of point `i` ends. -/
theorem C11_reverse_bounds_safety (c : ReverseConnectivityVTK)
    (hmono : c.IndexOffsets.data.Chain' (fun a b => a ≤ b))
    (hfit : c.IndexOffsets.data.Chain' (fun a b => b - a ≤ 2147483647))
    (hfirst : ∃ first : Int, c.IndexOffsets.Get 0 = some first ∧ 0 ≤ first)
    (hlast : ∃ last : Int, c.IndexOffsets.Get c.GetNumberOfElements = some last ∧
      last ≤ c.Connectivity.GetNumberOfValues)
    (i : Int) (h0 : 0 ≤ i) (hn : i < c.GetNumberOfElements) :
    ∃ (offset next : Int) (v : VecFromPortal),
      c.IndexOffsets.Get i = some offset ∧
      c.IndexOffsets.Get (i + 1) = some next ∧
      c.GetIndices i = some v ∧
      v.Offset = offset ∧
      0 ≤ v.NumComponents.val ∧
      v.NumComponents.val = next - offset ∧
      0 ≤ offset ∧ next ≤ c.Connectivity.GetNumberOfValues ∧
      (∀ p : Int, p ∈ v.positions → offset ≤ p ∧ p < next) ∧
      (∀ p : Int, offset ≤ p → p < next → ∃ x : Int, c.Connectivity.Get p = some x) ∧
      (i + 1 < c.GetNumberOfElements →
        ∃ w : VecFromPortal, c.GetIndices (i + 1) = some w ∧
          w.Offset = v.Offset + v.NumComponents.val) := by
  obtain ⟨first, hfirstGet, hfirst0⟩ := hfirst
  obtain ⟨last, hlastGet, hlastLe⟩ := hlast
  have hn1 : i + 1 < c.IndexOffsets.GetNumberOfValues := by
    unfold ReverseConnectivityVTK.GetNumberOfElements at hn
    omega
  obtain ⟨offset, hoff⟩ := ArrayPortal.Get_isSome c.IndexOffsets i h0 (by omega)
  obtain ⟨next, hnext⟩ := ArrayPortal.Get_isSome c.IndexOffsets (i + 1) (by omega) hn1
  have hle : offset ≤ next := ArrayPortal.chain_Get c.IndexOffsets hmono i offset next hoff hnext
  have hsmall : next - offset ≤ 2147483647 :=
    ArrayPortal.chain_Get c.IndexOffsets hfit i offset next hoff hnext
  have hoff0 : 0 ≤ offset := by
    have h := ArrayPortal.mono_Get c.IndexOffsets hmono 0 first hfirstGet i.toNat offset
      (by rw [zero_add, Int.toNat_of_nonneg h0]; exact hoff)
    omega
  have hnextLe : next ≤ c.Connectivity.GetNumberOfValues := by
    have hd : i + 1 + ((c.GetNumberOfElements - (i + 1)).toNat : Int) = c.GetNumberOfElements := by
      omega
    have h := ArrayPortal.mono_Get c.IndexOffsets hmono (i + 1) next hnext
      (c.GetNumberOfElements - (i + 1)).toNat last (by rw [hd]; exact hlastGet)
    omega
  have hval : (toIdComponent (next - offset)).val = next - offset :=
    toIdComponent_of_inRange (next - offset) (by omega) hsmall
  refine ⟨offset, next, ⟨c.Connectivity, toIdComponent (next - offset), offset⟩,
    hoff, hnext, ?_, rfl, ?_, hval, hoff0, hnextLe, ?_, ?_, ?_⟩
  · simp [ReverseConnectivityVTK.GetIndices, hoff, hnext]
  · rw [hval]; omega
  · intro p hp
    obtain ⟨k, hk0, hk1, rfl⟩ := VecFromPortal.mem_positions _ p hp
    simp only [hval] at hk1
    simp only []
    omega
  · intro p hp0 hp1
    exact ArrayPortal.Get_isSome c.Connectivity p (by omega) (by omega)
  · intro hi2
    have hn2 : i + 1 + 1 < c.IndexOffsets.GetNumberOfValues := by
      unfold ReverseConnectivityVTK.GetNumberOfElements at hi2
      omega
    obtain ⟨next2, hnext2⟩ :=
      ArrayPortal.Get_isSome c.IndexOffsets (i + 1 + 1) (by omega) hn2
    refine ⟨⟨c.Connectivity, toIdComponent (next2 - next), next⟩, ?_, ?_⟩
    · simp [ReverseConnectivityVTK.GetIndices, hnext, hnext2]
    · simp only [hval]
      omega

/-- C11, witness: the scenario of the specification satisfies the conditions;
the view of its point `1` has length `2`, covers `[2, 4)` inside the six
entries of the flattened array, and the view of point `2` starts at `4`. -/
theorem C11_reverse_bounds_safety_witness :
    reverseScenario.IndexOffsets.data.Chain' (fun a b => a ≤ b) ∧
    reverseScenario.IndexOffsets.data.Chain' (fun a b => b - a ≤ 2147483647) ∧
    (∃ first : Int, reverseScenario.IndexOffsets.Get 0 = some first ∧ 0 ≤ first) ∧
    (∃ last : Int, reverseScenario.IndexOffsets.Get reverseScenario.GetNumberOfElements
        = some last ∧ last ≤ reverseScenario.Connectivity.GetNumberOfValues) ∧
    (0 : Int) ≤ 1 ∧ 1 < reverseScenario.GetNumberOfElements ∧
    (∃ v : VecFromPortal, reverseScenario.GetIndices 1 = some v ∧
      0 ≤ v.NumComponents.val ∧
      ∃ w : VecFromPortal, reverseScenario.GetIndices (1 + 1) = some w ∧
        w.Offset = v.Offset + v.NumComponents.val) ∧
    (reverseScenario.GetIndices 1).map VecFromPortal.positions = some [2, 3] ∧
    (reverseScenario.GetIndices 2).map VecFromPortal.positions = some [4, 5] := by
  have hfirst : ∃ first : Int, reverseScenario.IndexOffsets.Get 0 = some first ∧ 0 ≤ first :=
    ⟨0, by decide, by decide⟩
  have hlast : ∃ last : Int,
      reverseScenario.IndexOffsets.Get reverseScenario.GetNumberOfElements = some last ∧
      last ≤ reverseScenario.Connectivity.GetNumberOfValues := ⟨6, by decide, by decide⟩
  obtain ⟨_, _, v, _, _, hv, _, hlen, _, _, _, _, _, hnextView⟩ :=
    C11_reverse_bounds_safety reverseScenario (by simp [reverseScenario])
      (by simp [reverseScenario]) hfirst hlast 1 (by decide) (by decide)
  exact ⟨by simp [reverseScenario], by simp [reverseScenario], hfirst, hlast, by decide,
    by decide, ⟨v, hv, hlen, hnextView (by decide)⟩, by decide, by decide⟩

/-- C13: with `vtkm::Id` a 64-bit and `vtkm::IdComponent` a 32-bit signed
integer, the length of the view returned by the variable-shape `GetIndices` is
the count cell `connectivity[indexOffsets[i]]` reduced modulo `2^32` into
`[-2^31, 2^31)`, and the length of the view returned by the reverse
`GetIndices` is `indexOffsets[i+1] - indexOffsets[i]` reduced the same way
(reducing the 64-bit difference first changes nothing); each length equals the
unreduced value exactly when that value lies in `[-2^31, 2^31)`; for the count
cell `2^32 + 3` of `aosWideCount` the returned length is `3`, not the stored
count. -/
theorem C13_length_narrowing :
    (∀ (c : ConnectivityVTKAOS) (i offset count : Int),
      c.IndexOffsets.Get i = some offset → c.Connectivity.Get offset = some count →
      ∃ v : VecFromPortal, c.GetIndices i = some v ∧
        v.NumComponents.val = (count + 2147483648) % 4294967296 - 2147483648 ∧
        -2147483648 ≤ v.NumComponents.val ∧ v.NumComponents.val < 2147483648 ∧
        (v.NumComponents.val = count ↔ -2147483648 ≤ count ∧ count < 2147483648)) ∧
    (∀ (c : ReverseConnectivityVTK) (i offset next : Int),
      c.IndexOffsets.Get i = some offset → c.IndexOffsets.Get (i + 1) = some next →
      ∃ v : VecFromPortal, c.GetIndices i = some v ∧
        v.NumComponents.val = (next - offset + 2147483648) % 4294967296 - 2147483648 ∧
        -2147483648 ≤ v.NumComponents.val ∧ v.NumComponents.val < 2147483648 ∧
        (v.NumComponents.val = next - offset ↔
          -2147483648 ≤ next - offset ∧ next - offset < 2147483648)) ∧
    (∀ x : Int,
      toIdComponent ((x + 9223372036854775808) % 18446744073709551616 - 9223372036854775808)
        = toIdComponent x) ∧
    aosWideCount.Connectivity.Get 0 = some 4294967299 ∧
    (∃ v : VecFromPortal, aosWideCount.GetIndices 0 = some v ∧
      v.NumComponents.val = 3 ∧ v.NumComponents.val ≠ 4294967299) := by
  refine ⟨?_, ?_, ?_, by decide, ⟨⟨aosWideCount.Connectivity, ⟨3, by decide⟩, 1⟩,
    by decide, rfl, by decide⟩⟩
  · intro c i offset count hoff hcount
    refine ⟨⟨c.Connectivity, toIdComponent count, offset + 1⟩, ?_, rfl, ?_, ?_,
      toIdComponent_eq_iff count⟩
    · simp [ConnectivityVTKAOS.GetIndices, hoff, hcount]
    · exact (toIdComponent count).property.1
    · have h := (toIdComponent count).property.2
      show (toIdComponent count).val < 2147483648
      omega
  · intro c i offset next hoff hnext
    refine ⟨⟨c.Connectivity, toIdComponent (next - offset), offset⟩, ?_, rfl, ?_, ?_,
      toIdComponent_eq_iff (next - offset)⟩
    · simp [ReverseConnectivityVTK.GetIndices, hoff, hnext]
    · exact (toIdComponent (next - offset)).property.1
    · have h := (toIdComponent (next - offset)).property.2
      show (toIdComponent (next - offset)).val < 2147483648
      omega
  · intro x
    apply Subtype.ext
    rw [toIdComponent_val_eq, toIdComponent_val_eq]
    omega

/-- C13, witness: the first part at cell `0` of `aosWideCount`, whose offset
`0` and count cell `2^32 + 3` are readable; the returned length is not the
stored count because the count is not below `2^31`. -/
theorem C13_length_narrowing_witness :
    aosWideCount.IndexOffsets.Get 0 = some 0 ∧
    aosWideCount.Connectivity.Get 0 = some 4294967299 ∧
    ∃ v : VecFromPortal, aosWideCount.GetIndices 0 = some v ∧
      v.NumComponents.val ≠ 4294967299 := by
  obtain ⟨v, hv, _, _, _, hiff⟩ :=
    C13_length_narrowing.1 aosWideCount 0 0 4294967299 (by decide) (by decide)
  refine ⟨by decide, by decide, v, hv, ?_⟩
  intro h
  have := (hiff.mp h).2
  omega

end vtkm

namespace vtkGeoTransform

theorem truncToInt_of_abs_lt_one (q : ℚ) (hlo : -1 < q) (hhi : q < 1) : truncToInt q = 0 := by
  unfold truncToInt
  split
  · rename_i h0
    exact Int.floor_eq_zero_iff.mpr ⟨h0, hhi⟩
  · rename_i h0
    exact Int.ceil_eq_zero_iff.mpr ⟨by simpa using hlo, le_of_lt (not_le.mp h0)⟩

theorem fmod_of_abs_lt (x y : ℚ) (hy : 0 < y) (hlo : -y < x) (hhi : x < y) : fmod x y = x := by
  unfold fmod
  have h := truncToInt_of_abs_lt_one (x / y)
    (by rw [lt_div_iff₀ hy]; linarith) (by rw [div_lt_iff₀ hy]; linarith)
  rw [h]
  simp

/-- Known roundings: `1/10` and `1/3` round to the doubles printed `0.1` and
`0.3333333333333333`, the tie `2^53 + 1` rounds to the even `2^53`, and doubles
such as `180` and `1/2` are left unchanged. -/
theorem roundDouble_examples :
    roundDouble (1 / 10) = 3602879701896397 / 36028797018963968 ∧
    roundDouble (1 / 3) = 6004799503160661 / 18014398509481984 ∧
    roundDouble (9007199254740993) = 9007199254740992 ∧
    roundDouble (9007199254740995) = 9007199254740996 ∧
    roundDouble 180 = 180 ∧ roundDouble (1 / 2) = 1 / 2 ∧ roundDouble (-186) = -186 := by
  refine ⟨?_, ?_, ?_, ?_, ?_, ?_, ?_⟩ <;> decide!

/-- C14: `ComputeUTMZone` returns `0` whenever the latitude reduced by
`fmod(lat, 90)` is above `84` or below `-80`, in particular for every latitude
in `(84, 90)` and in `(-90, -80)` and every longitude.  At the poles the
reduction gives `0`: for `lat = 90` and for `lat = -90` (with `lon = 0`) the
function returns zone `31`, not `0`, although `90 > 84` and `-90 < -80`. -/
theorem C14_pole_latitude_not_rejected :
    (∀ lat lon : ℚ, fmod lat 90 > 84 ∨ fmod lat 90 < -80 → ComputeUTMZone lat lon = 0) ∧
    (∀ lat lon : ℚ, (84 < lat ∧ lat < 90) ∨ (-90 < lat ∧ lat < -80) →
      ComputeUTMZone lat lon = 0) ∧
    (90 : ℚ) > 84 ∧ fmod 90 90 = 0 ∧ ComputeUTMZone 90 0 = 31 ∧
    (-90 : ℚ) < -80 ∧ fmod (-90) 90 = 0 ∧ ComputeUTMZone (-90) 0 = 31 := by
  have hred : ∀ lat lon : ℚ, fmod lat 90 > 84 ∨ fmod lat 90 < -80 →
      ComputeUTMZone lat lon = 0 := by
    intro lat lon h
    simp only [ComputeUTMZone, if_pos h]
  refine ⟨hred, ?_, by decide!, by decide!, by decide!, by decide!, by decide!, by decide!⟩
  intro lat lon h
  apply hred
  rcases h with ⟨h1, h2⟩ | ⟨h1, h2⟩
  · rw [fmod_of_abs_lt lat 90 (by norm_num) (by linarith) h2]
    exact Or.inl h1
  · rw [fmod_of_abs_lt lat 90 (by norm_num) h1 (by linarith)]
    exact Or.inr h2

/-- C15: at `lat = 0` and `lon = largestBelow180`, a finite `double` that
`fmod(lon, 180)` leaves unchanged and that lies outside both special areas, the
sum `lon + 180` rounds to `360` and `ComputeUTMZone` returns `61`, which is not
in `0..60`.  Elsewhere the branches are as described: in the first special
area the result is `31`, `33`, `35` or `37`, split at `9`, `21`, `33`; in the
second it is `31` or `32`, split at `3`; outside the latitude limits it is `0`;
in the general case it is the truncation of the rounded `(lon + 180) / 6 + 1`,
`15` for `lat = 45`, `lon = -93`. -/
theorem C15_zone_61_just_below_180 :
    roundDouble largestBelow180 = largestBelow180 ∧
    largestBelow180 = 180 - 1 / 2 ^ 45 ∧
    fmod largestBelow180 180 = largestBelow180 ∧
    roundDouble (largestBelow180 + 180) = 360 ∧
    ComputeUTMZone 0 largestBelow180 = 61 ∧
    ¬ ((0 : Int) ≤ ComputeUTMZone 0 largestBelow180 ∧
      ComputeUTMZone 0 largestBelow180 ≤ 60) ∧
    ComputeUTMZone 45 (-93) = 15 ∧
    (∀ lat lon : ℚ, ¬ (fmod lat 90 > 84 ∨ fmod lat 90 < -80) →
      fmod lat 90 ≥ 72 ∧ fmod lon 180 ≥ 0 ∧ fmod lon 180 < 42 →
      ComputeUTMZone lat lon
        = if fmod lon 180 < 9 then 31
          else if fmod lon 180 < 21 then 33
          else if fmod lon 180 < 33 then 35
          else 37) ∧
    (∀ lat lon : ℚ, ¬ (fmod lat 90 > 84 ∨ fmod lat 90 < -80) →
      ¬ (fmod lat 90 ≥ 72 ∧ fmod lon 180 ≥ 0 ∧ fmod lon 180 < 42) →
      fmod lat 90 ≥ 56 ∧ fmod lat 90 < 64 ∧ fmod lon 180 ≥ 0 ∧ fmod lon 180 < 12 →
      ComputeUTMZone lat lon = if fmod lon 180 < 3 then 31 else 32) ∧
    (∀ lat lon : ℚ, ¬ (fmod lat 90 > 84 ∨ fmod lat 90 < -80) →
      ¬ (fmod lat 90 ≥ 72 ∧ fmod lon 180 ≥ 0 ∧ fmod lon 180 < 42) →
      ¬ (fmod lat 90 ≥ 56 ∧ fmod lat 90 < 64 ∧ fmod lon 180 ≥ 0 ∧ fmod lon 180 < 12) →
      ComputeUTMZone lat lon
        = truncToInt (roundDouble (roundDouble (roundDouble (fmod lon 180 + 180) / 6) + 1))) := by
  refine ⟨by decide!, by decide!, by decide!, by decide!, by decide!, by decide!, by decide!,
    ?_, ?_, ?_⟩
  · intro lat lon h1 h2
    simp only [ComputeUTMZone, if_neg h1, if_pos h2]
  · intro lat lon h1 h2 h3
    simp only [ComputeUTMZone, if_neg h1, if_neg h2, if_pos h3]
  · intro lat lon h1 h2 h3
    simp only [ComputeUTMZone, if_neg h1, if_neg h2, if_neg h3]

end vtkGeoTransform
